import Mathlib

/-!
Verification of the create-k8s-app bootstrapper (createK8sApp.js).

The embedding models the five core functions of the source file --
`isSafeToCreateProjectIn`, the rollback handler inside `run`,
`getInstallPackage`, `getPackageName` and `install` -- as pure Lean
functions over `List Char` / `String`.  JavaScript regular expressions are
translated predicate-by-predicate with JS semantics (`.` does not match a
line terminator, `$` anchors at the true end of input, greedy/lazy
backtracking as the engine performs it).  Asynchronous I/O outcomes
(tarball unpacking, manifest reads, the installer subprocess's exit code)
are oracle parameters, so a theorem quantifying over the oracle covers
every possible outcome of the real I/O.
-/

namespace CKA

/-! ## JavaScript character classes -/

/-- Characters removed by `String.prototype.trim` (ES WhiteSpace and
LineTerminator). -/
def jsWs (c : Char) : Bool :=
  c = ' ' || c = '\t' || c = '\n' || c = '\r' || c = '\x0b' || c = '\x0c' ||
  c = ' ' || c = '﻿' || c = ' ' ||
  (' ' ≤ c && c ≤ ' ') ||
  c = ' ' || c = ' ' || c = ' ' || c = ' ' || c = '　'

/-- Characters matched by the JS regex metacharacter `.` (anything except a
line terminator). -/
def jsDot (c : Char) : Bool :=
  !(c = '\n' || c = '\r' || c = ' ' || c = ' ')

def trimLeft (l : List Char) : List Char := l.dropWhile jsWs

def trimRight (l : List Char) : List Char := (l.reverse.dropWhile jsWs).reverse

/-- `String.prototype.trim`. -/
def jsTrim (l : List Char) : List Char := trimRight (trimLeft l)

/-! ## node-semver's strict FULL grammar

`semver.valid(v)` parses `v` against the strict regex
`^v?(0|[1-9]\d*)\.(0|[1-9]\d*)\.(0|[1-9]\d*)(?:-((?:0|[1-9]\d*|\d*[a-zA-Z-][a-zA-Z0-9-]*)(?:\.(?:0|[1-9]\d*|\d*[a-zA-Z-][a-zA-Z0-9-]*))*))?(?:\+([0-9A-Za-z-]+(?:\.[0-9A-Za-z-]+)*))?$`
after trimming, rejects inputs longer than 256 characters or with a
numeric component above `Number.MAX_SAFE_INTEGER`, and formats the result
as `major.minor.patch[-prerelease]` -- the leading `v`, surrounding
whitespace and any build metadata are dropped. -/

/-- Consume the optional leading `v` of node-semver's strict grammar. -/
def stripV (l : List Char) : List Char :=
  match l with
  | c :: r => if c = 'v' then r else c :: r
  | [] => []

/-- One numeric identifier `0|[1-9]\d*` by maximal munch (a shorter munch
always leaves a digit where the grammar requires `.`, `-`, `+` or the end,
so maximal munch is exact). -/
def parseNumIdent (l : List Char) : Option (List Char × List Char) :=
  match l with
  | [] => none
  | c :: r =>
    if c = '0' then some (['0'], r)
    else if c.isDigit then some (c :: r.takeWhile Char.isDigit, r.dropWhile Char.isDigit)
    else none

def expectDot (l : List Char) : Option (List Char) :=
  match l with
  | c :: r => if c = '.' then some r else none
  | [] => none

/-- `major.minor.patch` of the strict grammar: the three numeral texts and
the unconsumed rest. -/
def parseMain (l : List Char) : Option (List Char × List Char × List Char × List Char) :=
  match parseNumIdent l with
  | none => none
  | some (a, r1) =>
    match expectDot r1 with
    | none => none
    | some r2 =>
      match parseNumIdent r2 with
      | none => none
      | some (b, r3) =>
        match expectDot r3 with
        | none => none
        | some r4 =>
          match parseNumIdent r4 with
          | none => none
          | some (c, r5) => some (a, b, c, r5)

/-- The regex character class `[a-zA-Z0-9-]`. -/
def alnumHy (c : Char) : Bool := c.isAlpha || c.isDigit || c = '-'

/-- A prerelease identifier `0|[1-9]\d*|\d*[a-zA-Z-][a-zA-Z0-9-]*`: a
nonempty `[a-zA-Z0-9-]` run, with no leading zero when purely numeric. -/
def preIdentOk (run : List Char) : Bool :=
  !run.isEmpty &&
    (if run.all Char.isDigit then
      match run with
      | '0' :: _ :: _ => false
      | _ => true
    else true)

/-- A build identifier `[0-9A-Za-z-]+`: any nonempty run. -/
def buildIdentOk (run : List Char) : Bool := !run.isEmpty

/-- Dot-separated identifier list (prerelease or build part).  Each
identifier is the maximal `[a-zA-Z0-9-]` run (exact: a shorter munch leaves
a class character where the grammar requires `.`, `+` or the end).  Returns
the matched text (identifiers joined with dots) and the unconsumed rest. -/
def parseDotList (identOk : List Char → Bool) : Nat → List Char → Option (List Char × List Char)
  | 0, _ => none
  | fuel + 1, l =>
    let run := l.takeWhile alnumHy
    let rest := l.dropWhile alnumHy
    if identOk run then
      match rest with
      | '.' :: r2 =>
        match parseDotList identOk fuel r2 with
        | some (t, r3) => some (run ++ '.' :: t, r3)
        | none => none
      | _ => some (run, rest)
    else none

/-- `([0-9A-Za-z-]+(?:\.[0-9A-Za-z-]+)*)$`: the build metadata must consume
everything to the end of input. -/
def buildOk (l : List Char) : Bool :=
  match parseDotList buildIdentOk (l.length + 1) l with
  | some (_, []) => true
  | _ => false

/-- After `major.minor.patch`: optional `-prerelease`, optional `+build`,
end of input.  Returns the `-prerelease` text kept by the formatter
(`[]` when there is none; build metadata is dropped). -/
def parseTail (l : List Char) : Option (List Char) :=
  match l with
  | [] => some []
  | c :: r =>
    if c = '-' then
      match parseDotList preIdentOk (r.length + 1) r with
      | some (t, r2) =>
        match r2 with
        | [] => some ('-' :: t)
        | c2 :: r3 => if c2 = '+' then (if buildOk r3 then some ('-' :: t) else none) else none
      | none => none
    else if c = '+' then (if buildOk r then some [] else none)
    else none

/-- Numeric value of a digit string. -/
def natVal (l : List Char) : Nat :=
  l.foldl (fun n c => n * 10 + (c.toNat - 48)) 0

/-- `Number.MAX_SAFE_INTEGER`. -/
def maxSafeInteger : Nat := 9007199254740991

/-- Strict parse of a trimmed version string; `some` holds the formatted
version `major.minor.patch[-prerelease]`. -/
def semverParse (l : List Char) : Option (List Char) :=
  match parseMain (stripV l) with
  | none => none
  | some (a, b, c, rest) =>
    if natVal a ≤ maxSafeInteger && natVal b ≤ maxSafeInteger && natVal c ≤ maxSafeInteger then
      match parseTail rest with
      | none => none
      | some preText => some (a ++ '.' :: b ++ '.' :: c ++ preText)
    else none

/-- `semver.valid` on the character list of the argument. -/
def semverValidL (l : List Char) : Option (List Char) :=
  if l.length > 256 then none else semverParse (jsTrim l)

/-- `semver.valid`: `some` of the normalized version, `none` for an invalid
version. -/
def semverValid (s : String) : Option String :=
  (semverValidL s.data).map String.mk

/-- Validity per the official SemVer 2.0.0 grammar, written from the spec's
words "a valid semantic version string": `major.minor.patch` with optional
`-prerelease` and `+build`, no leading `v`, no surrounding whitespace, no
length or magnitude bound.  Declared only to compare the claim's notion of
a valid version with the code's validator. -/
def semver2Spec (s : String) : Bool :=
  match parseMain s.data with
  | none => false
  | some (_, _, _, rest) => (parseTail rest).isSome

/-! ## path.resolve (posix)

`path.resolve(...args)` walks the arguments right to left, prepending each
nonempty one until a segment makes the accumulated path absolute, falling
back to the process working directory, then normalizes `.`/`..`/duplicate
separators (`normalizeString`). -/

/-- String split on `/`. -/
def splitOnSlash : List Char → List (List Char)
  | [] => [[]]
  | c :: rest =>
    let r := splitOnSlash rest
    if c = '/' then [] :: r
    else
      match r with
      | h :: t => (c :: h) :: t
      | [] => [[c]]

/-- `normalizeString`'s component walk: empty and `.` components vanish,
`..` pops the previous component, or is kept (relative path) / dropped
(absolute path) when there is nothing to pop.  `stack` is accumulated in
reverse. -/
def normStack (allowAboveRoot : Bool) : List (List Char) → List (List Char) → List (List Char)
  | stack, [] => stack.reverse
  | stack, comp :: rest =>
    if comp = [] || comp = ['.'] then normStack allowAboveRoot stack rest
    else if comp = ['.', '.'] then
      match stack with
      | top :: below =>
        if top = ['.', '.'] then
          if allowAboveRoot then normStack allowAboveRoot (comp :: stack) rest
          else normStack allowAboveRoot stack rest
        else normStack allowAboveRoot below rest
      | [] =>
        if allowAboveRoot then normStack allowAboveRoot [comp] rest
        else normStack allowAboveRoot [] rest
    else normStack allowAboveRoot (comp :: stack) rest

def joinSlash : List (List Char) → List Char
  | [] => []
  | [c] => c
  | c :: rest => c ++ '/' :: joinSlash rest

/-- The right-to-left accumulation loop of `path.posix.resolve`: each
nonempty entry is prepended as `entry ++ "/" ++ acc` until one starts with
`/`.  The argument list is already reversed (rightmost argument first,
process cwd last). -/
def resolveAccum : List Char → List (List Char) → Bool × List Char
  | acc, [] => (false, acc)
  | acc, a :: rest =>
    match a with
    | [] => resolveAccum acc rest
    | c :: _ => if c = '/' then (true, a ++ '/' :: acc) else resolveAccum (a ++ '/' :: acc) rest

/-- `path.posix.resolve(...args)` with the process working directory
`pcwd` as the implicit final fallback. -/
def pathResolveL (pcwd : List Char) (args : List (List Char)) : List Char :=
  let r := resolveAccum [] (args.reverse ++ [pcwd])
  let res := joinSlash (normStack (!r.1) [] (splitOnSlash r.2))
  if r.1 then '/' :: res
  else if res = [] then ['.'] else res

/-! ## getInstallPackage (createK8sApp.js lines 232-251) -/

/-- The capture `[1]` of `s.match(/^file:(.*)?$/)` as its callers consume
it, for `s` already known to start with `file:`.  `some p` is a usable
capture: the remainder `p` after `file:` is nonempty and free of line
terminators.  `none` covers the two ways the callers then throw a
TypeError: a remainder containing a line terminator makes the whole match
`null` (JS `.` cannot cross one and `$` anchors at the true end), so
indexing `[1]` throws; and an empty remainder makes the match succeed with
the capture `undefined` -- the ES RepeatMatcher rejects the group's
zero-width iteration, so the optional group does not participate -- and
`path.resolve`/`path.join` on `undefined` throw. -/
def fileCapture (l : List Char) : Option (List Char) :=
  if !(l.drop 5).isEmpty && (l.drop 5).all jsDot then some (l.drop 5) else none

/-- Outcome of `getInstallPackage`: the reference it returns, or the
TypeError thrown in the `file:` branch -- from indexing `[1]` into a
`null` match (remainder with a line terminator) or from
`path.resolve(originalDirectory, undefined)` (empty remainder, capture
`undefined`). -/
inductive ResolveResult where
  | ok (reference : String)
  | typeError
deriving DecidableEq

/-- `getInstallPackage(version, originalDirectory)`.  `version` is the raw
`--scripts-version` argument (`none` = `undefined`), `pcwd` the process
working directory `path.resolve` would fall back to (the source never
reaches that fallback because `originalDirectory` is absolute). -/
def getInstallPackage (version : Option String) (originalDirectory pcwd : String) : ResolveResult :=
  match version with
  | none => .ok "k8s-scripts"
  | some v =>
    match semverValidL v.data with
    | some norm => .ok (String.mk ("k8s-scripts@".data ++ norm))
    | none =>
      if v.data = [] then .ok "k8s-scripts"
      else if v.data.head? = some '@' && !v.data.contains '/' then
        .ok (String.mk ("k8s-scripts".data ++ v.data))
      else if "file:".data.isPrefixOf v.data then
        match fileCapture v.data with
        | some p => .ok (String.mk ("file:".data ++
            pathResolveL pcwd.data [originalDirectory.data, p]))
        | none => .typeError
      else .ok v

/-! ## getPackageName (createK8sApp.js lines 254-309) -/

/-- The test `installPackage.match(/^.+\.(tgz|tar\.gz)$/)`: the input ends
in `.tgz` or `.tar.gz` and the nonempty stem before the extension contains
no line terminator (the `.+` cannot cross one). -/
def isTarballL (l : List Char) : Bool :=
  (".tgz".data.isSuffixOf l &&
    (let stem := l.take (l.length - 4); !stem.isEmpty && stem.all jsDot)) ||
  (".tar.gz".data.isSuffixOf l &&
    (let stem := l.take (l.length - 7); !stem.isEmpty && stem.all jsDot))

def isTarball (s : String) : Bool := isTarballL s.data

/-- After the lazy capture of the fallback regex
`/^.+\/(.+?)(?:-\d+.+)?\.(tgz|tar\.gz)$/`, the remainder must match
`(?:-\d+.+)?\.(tgz|tar\.gz)$` : either exactly an extension, or `-`, a
digit, then `.+\.(tgz|tar\.gz)$` (shrinking `\d+` to one digit is complete,
since digits are also matched by `.`). -/
def restOk (rest : List Char) : Bool :=
  rest = ".tgz".data || rest = ".tar.gz".data ||
  (match rest with
   | '-' :: d :: m => d.isDigit && isTarballL m
   | _ => false)

/-- The lazy group `(.+?)` grows one character at a time, so the capture is
the shortest nonempty line-terminator-free prefix whose remainder satisfies
`restOk`. -/
def findCapture (g : List Char) : List Char → Option (List Char)
  | [] => none
  | c :: rest =>
    if jsDot c then
      if restOk rest then some (g ++ [c])
      else findCapture (g ++ [c]) rest
    else none

/-- All decompositions `l = before ++ '/' :: after`, the rightmost slash
first: the greedy `^.+\/` tries the longest prefix first and backtracks
leftward. -/
def splitsAtSlash : List Char → List (List Char × List Char)
  | [] => []
  | c :: rest =>
    let later := (splitsAtSlash rest).map (fun pr => (c :: pr.1, pr.2))
    if c = '/' then later ++ [([], rest)] else later

/-- The capture `[1]` of
`installPackage.match(/^.+\/(.+?)(?:-\d+.+)?\.(tgz|tar\.gz)$/)`, or `none`
when the match is `null` -- in particular whenever the input contains no
`/`, since `^.+\/` demands one. -/
def assumedNameL (l : List Char) : Option (List Char) :=
  (splitsAtSlash l).findSome? fun pr =>
    if !pr.1.isEmpty && pr.1.all jsDot then findCapture [] pr.2 else none

/-- `(#.*)?$` after `.git`: end of input, or `#` then line-terminator-free
text to the end. -/
def gitTailOk : List Char → Bool
  | [] => true
  | '#' :: u => u.all jsDot
  | _ => false

/-- Greedy `([^/]+)\.git(#.*)?$` anchored at the current position: the
longest nonempty slash-free run followed by `.git` and a valid tail. -/
def gitMunch : List Char → Option (List Char)
  | [] => none
  | c :: rest =>
    if c = '/' then none
    else
      match gitMunch rest with
      | some b => some (c :: b)
      | none =>
        if ".git".data.isPrefixOf rest && gitTailOk (rest.drop 4) then some [c] else none

/-- The capture `[1]` of `installPackage.match(/([^/]+)\.git(#.*)?$/)`:
leftmost start position, greedy run. -/
def gitMatchL : List Char → Option (List Char)
  | [] => none
  | c :: rest =>
    match gitMunch (c :: rest) with
    | some b => some b
    | none => gitMatchL rest

/-- The test `installPackage.match(/.+@/)`: some `@` is preceded by a
character `.` can match. -/
def hasAtQualifier : List Char → Bool
  | [] => false
  | [_] => false
  | a :: b :: rest => (jsDot a && b = '@') || hasAtQualifier (b :: rest)

/-- `installPackage.charAt(0) + installPackage.substr(1).split('@')[0]`. -/
def stripVersionL : List Char → List Char
  | [] => []
  | c :: rest => c :: rest.takeWhile (fun x => !(x = '@'))

/-- Outcome of the promise `getPackageName` returns: resolved with a name,
rejected (a throw inside the `.catch` handler rejects the chained promise),
or a synchronous throw escaping before any promise exists. -/
inductive PResult where
  | resolved (name : String)
  | rejected
  | thrown
deriving DecidableEq

/-- `getPackageName(installPackage)`.  `tar` is the oracle for the tarball
path: `some name` when the download/unpack/manifest-read chain succeeds and
the unpacked `package.json` declares `name`, `none` when any step of that
chain fails (the `.catch` handler runs).  `fm` is the oracle for
`require(path.join(installPackagePath, 'package.json')).name` on the
`file:` path: `none` means the require throws.  When `fileCapture` is
`none` the branch throws synchronously before consulting the oracle --
`[1]` on a `null` match, or `path.join(undefined, 'package.json')` on an
`undefined` capture. -/
def getPackageName (installPackage : String) (tar : Option String)
    (fm : String → Option String) : PResult :=
  let l := installPackage.data
  if isTarballL l then
    match tar with
    | some n => .resolved n
    | none =>
      match assumedNameL l with
      | some n => .resolved (String.mk n)
      | none => .rejected
  else if "git+".data.isPrefixOf l then
    match gitMatchL l with
    | some b => .resolved (String.mk b)
    | none => .thrown
  else if hasAtQualifier l then
    .resolved (String.mk (stripVersionL l))
  else if "file:".data.isPrefixOf l then
    match fileCapture l with
    | some p =>
      match fm (String.mk p) with
      | some n => .resolved n
      | none => .thrown
    | none => .thrown
  else .resolved installPackage

/-! ## isSafeToCreateProjectIn (createK8sApp.js lines 120-171) -/

def validFiles : List String :=
  [".DS_Store", "Thumbs.db", ".git", ".gitignore", "README.md", "LICENSE",
   ".npmignore", "docs", ".gitlab-ci.yml", ".gitattributes"]

def errorLogFilePatterns : List String := ["npm-debug.log"]

/-- `errorLogFilePatterns.some(pattern => file.indexOf(pattern) === 0)`. -/
def isErrorLog (f : String) : Bool :=
  errorLogFilePatterns.any fun p => p.data.isPrefixOf f.data

/-- The `conflicts` list: directory entries that are neither in the
allow-list nor named like a transient error log. -/
def conflictsOf (entries : List String) : List String :=
  (entries.filter fun f => !validFiles.contains f).filter fun f => !isErrorLog f

structure GuardOutcome where
  safe : Bool
  reported : List String
  entriesAfter : List String
deriving DecidableEq

/-- `isSafeToCreateProjectIn(root, name)` over the listing of `root`:
the returned boolean, the conflict names it reports, and the listing after
its side effect (error-log remnants removed on the safe path). -/
def isSafeToCreateProjectIn (entries : List String) : GuardOutcome :=
  let conflicts := conflictsOf entries
  if conflicts.length > 0 then
    { safe := false, reported := conflicts, entriesAfter := entries }
  else
    { safe := true, reported := [], entriesAfter := entries.filter fun f => !isErrorLog f }

/-! ## the rollback handler (createK8sApp.js lines 193-229) -/

def knownGeneratedFiles : List String := ["package.json", "node_modules"]

structure RollbackOutcome where
  rootEntries : List String
  rootRemoved : Bool
  cwd : String
  exitCode : Nat
deriving DecidableEq

/-- The `.catch` handler of `run`: delete every root entry named in
`knownGeneratedFiles`, re-list, and when nothing remains chdir to
`path.resolve(root, '..')` and delete the root; always `process.exit(1)`.
`entries` is the root listing when the handler runs, `cwdBefore` the
process working directory at that moment. -/
def rollbackHandler (entries : List String) (cwdBefore root pcwd : String) : RollbackOutcome :=
  let remaining := entries.filter fun f => !knownGeneratedFiles.contains f
  if remaining.isEmpty then
    { rootEntries := [], rootRemoved := true,
      cwd := String.mk (pathResolveL pcwd.data [root.data, "..".data]), exitCode := 1 }
  else
    { rootEntries := remaining, rootRemoved := false, cwd := cwdBefore, exitCode := 1 }

/-! ## install (createK8sApp.js lines 349-376) -/

/-- The argument vector built for the spawned package manager: the fixed
flags, then the references, then `--verbose` pushed last when requested. -/
def installArgs (dependencies : List String) (verbose : Bool) : List String :=
  ["install", "--save", "--save-exact", "--loglevel", "error"] ++ dependencies ++
    (if verbose then ["--verbose"] else [])

/-- `args.join(' ')`. -/
def joinArgs : List String → String
  | [] => ""
  | [a] => a
  | a :: b :: rest => a ++ " " ++ joinArgs (b :: rest)

inductive InstallResult where
  | resolved
  | installFailure (command : String)
deriving DecidableEq

/-- `install(root, dependencies, verbose)` as a function of the spawned
process's exit code (`none` models a `null` code from a signal kill; the
guard is `code !== 0`). -/
def install (dependencies : List String) (verbose : Bool) (exitCode : Option Int) : InstallResult :=
  if exitCode = some 0 then .resolved
  else .installFailure ("npm " ++ joinArgs (installArgs dependencies verbose))

/-- Readable form of the command line the code actually builds: the verbose
flag is appended after the references. -/
def joinTail : List String → String
  | [] => ""
  | a :: rest => " " ++ a ++ joinTail rest

def commandLineAmended (dependencies : List String) (verbose : Bool) : String :=
  "npm install --save --save-exact --loglevel error" ++ joinTail dependencies ++
    (if verbose then " --verbose" else "")

/-! ## Helper lemmas -/

theorem stringExt {a b : String} (h : a.data = b.data) : a = b :=
  congrArg String.mk h

theorem joinArgs_cons (a : String) (l : List String) :
    joinArgs (a :: l) = a ++ joinTail l := by
  induction l generalizing a with
  | nil =>
    apply stringExt
    simp [joinArgs, joinTail, String.data_append]
  | cons b t ih =>
    apply stringExt
    simp only [joinArgs, joinTail, String.data_append, ih b, List.append_assoc]

theorem joinTail_append (l m : List String) :
    joinTail (l ++ m) = joinTail l ++ joinTail m := by
  induction l with
  | nil =>
    apply stringExt
    simp [joinTail, String.data_append]
  | cons a t ih =>
    apply stringExt
    simp [joinTail, String.data_append, ih]

theorem npm_command_eq (dependencies : List String) (verbose : Bool) :
    "npm " ++ joinArgs (installArgs dependencies verbose) =
      commandLineAmended dependencies verbose := by
  apply stringExt
  cases verbose <;>
    simp [installArgs, commandLineAmended, joinArgs_cons, joinTail_append, joinTail,
      String.data_append]

/-! ## C1: the installer's failure command line -/

/-- C1 (counterexample): with one reference `a` and verbose requested, a
nonzero exit rejects with command `npm install --save --save-exact
--loglevel error a --verbose` -- the verbose flag follows the reference,
not the claimed order with `--verbose` preceding it. -/
theorem claim_C1_counterexample :
    install ["a"] true (some 1) =
      InstallResult.installFailure "npm install --save --save-exact --loglevel error a --verbose" ∧
    ("npm install --save --save-exact --loglevel error a --verbose" : String) ≠
      "npm install --save --save-exact --loglevel error --verbose a" :=
  ⟨rfl, by decide⟩

/-- C1 (amended): when the subprocess exits with code 0 `install` resolves;
on any other exit it rejects with an `installFailure` whose command is the
exact invoked line `npm install --save --save-exact --loglevel error
<reference...> [--verbose]` -- references in the order supplied, the
verbose flag (when requested) appended after them. -/
theorem claim_C1_main (dependencies : List String) (verbose : Bool) (exitCode : Option Int) :
    (exitCode ≠ some 0 →
      install dependencies verbose exitCode =
        InstallResult.installFailure (commandLineAmended dependencies verbose)) ∧
    (exitCode = some 0 → install dependencies verbose exitCode = InstallResult.resolved) := by
  constructor
  · intro h
    rw [install, if_neg h, npm_command_eq]
  · intro h
    rw [install, if_pos h]

/-- C1 (witness): the amended theorem at references `a b`, verbose on,
exit codes 2 and 0. -/
theorem claim_C1_witness :
    install ["a", "b"] true (some 2) =
      InstallResult.installFailure (commandLineAmended ["a", "b"] true) ∧
    install ["a", "b"] true (some 0) = InstallResult.resolved :=
  ⟨(claim_C1_main ["a", "b"] true (some 2)).1 (by decide),
   (claim_C1_main ["a", "b"] true (some 0)).2 rfl⟩

/-! ## C4: tarball name extraction round-trip -/

/-- C4 (counterexample): for the bare tarball reference `foo-1.2.3.tgz`
whose unpacked manifest declares name `bar`, success does resolve `bar`,
but when unpacking fails the promise is rejected (the fallback regex
`^.+\/...` requires a `/`, `match` is `null`, and indexing `[1]` throws
inside the catch handler) instead of resolving `foo`. -/
theorem claim_C4_counterexample :
    getPackageName "foo-1.2.3.tgz" (some "bar") (fun _ => none) = PResult.resolved "bar" ∧
    getPackageName "foo-1.2.3.tgz" none (fun _ => none) = PResult.rejected :=
  ⟨rfl, rfl⟩

/-- C4 (amended): for a tarball reference with a directory component,
`dir/foo-1.2.3.tgz`, whose unpacked manifest declares name `bar`,
extraction resolves `bar` when unpacking succeeds and falls back to `foo`
when unpacking fails. -/
theorem claim_C4_main :
    getPackageName "dir/foo-1.2.3.tgz" (some "bar") (fun _ => none) = PResult.resolved "bar" ∧
    getPackageName "dir/foo-1.2.3.tgz" none (fun _ => none) = PResult.resolved "foo" :=
  ⟨rfl, rfl⟩

/-! ## C5: the rollback handler's frame -/

theorem generated_contains (f : String) :
    knownGeneratedFiles.contains f = true ↔ f = "package.json" ∨ f = "node_modules" := by
  simp [knownGeneratedFiles, List.contains, List.elem_iff]

/-- C5 (confirmed): the rollback handler removes exactly the root entries
named `package.json` and `node_modules` and keeps every other entry; the
root directory is deleted if and only if nothing remains, in which case the
working directory moves to `path.resolve(root, '..')` (otherwise it is
unchanged); and the exit code is always 1. -/
theorem claim_C5_main (entries : List String) (cwdBefore root pcwd : String) :
    (rollbackHandler entries cwdBefore root pcwd).exitCode = 1 ∧
    (∀ e, e ∈ (rollbackHandler entries cwdBefore root pcwd).rootEntries ↔
      (e ∈ entries ∧ e ≠ "package.json" ∧ e ≠ "node_modules")) ∧
    ((rollbackHandler entries cwdBefore root pcwd).rootRemoved = true ↔
      ∀ e ∈ entries, e = "package.json" ∨ e = "node_modules") ∧
    (rollbackHandler entries cwdBefore root pcwd).cwd =
      (if entries.all (fun e => e == "package.json" || e == "node_modules")
       then String.mk (pathResolveL pcwd.data [root.data, "..".data])
       else cwdBefore) := by
  have hpred : ∀ f : String, (!knownGeneratedFiles.contains f) = true ↔
      (f ≠ "package.json" ∧ f ≠ "node_modules") := by
    intro f
    rw [Bool.not_eq_true', ← Bool.not_eq_true, generated_contains]
    tauto
  have hall : (entries.filter fun f => !knownGeneratedFiles.contains f) = [] ↔
      ∀ e ∈ entries, e = "package.json" ∨ e = "node_modules" := by
    rw [List.filter_eq_nil_iff]
    constructor
    · intro h e he
      have := h e he
      rw [hpred] at this
      tauto
    · intro h e he
      rw [hpred]
      have := h e he
      tauto
  have hallb : (entries.all fun e => e == "package.json" || e == "node_modules") = true ↔
      ∀ e ∈ entries, e = "package.json" ∨ e = "node_modules" := by
    rw [List.all_eq_true]
    constructor
    · intro h e he
      have := h e he
      simpa using this
    · intro h e he
      have := h e he
      simpa using this
  unfold rollbackHandler
  by_cases hrem : (entries.filter fun f => !knownGeneratedFiles.contains f).isEmpty
  · rw [if_pos hrem]
    rw [List.isEmpty_iff] at hrem
    refine ⟨rfl, ?_, ?_, ?_⟩
    · intro e
      simp only [List.not_mem_nil, false_iff]
      intro ⟨he, h1, h2⟩
      have : e ∈ (entries.filter fun f => !knownGeneratedFiles.contains f) := by
        rw [List.mem_filter, hpred]
        exact ⟨he, h1, h2⟩
      rw [hrem] at this
      exact List.not_mem_nil e this
    · simp only [true_iff]
      exact hall.mp hrem
    · rw [if_pos (hallb.mpr (hall.mp hrem))]
  · rw [if_neg hrem]
    rw [List.isEmpty_iff] at hrem
    refine ⟨rfl, ?_, ?_, ?_⟩
    · intro e
      rw [List.mem_filter, hpred]
    · simp only [Bool.false_eq_true, false_iff]
      intro h
      exact hrem (hall.mpr h)
    · rw [if_neg]
      intro h
      exact hrem (hall.mpr (hallb.mp h))

/-! ## C6: the project-directory guard's conflict report -/

theorem isErrorLog_eq (f : String) :
    isErrorLog f = "npm-debug.log".data.isPrefixOf f.data := by
  simp [isErrorLog, errorLogFilePatterns]

theorem mem_conflictsOf (entries : List String) (f : String) :
    f ∈ conflictsOf entries ↔
      f ∈ entries ∧ f ∉ validFiles ∧ "npm-debug.log".data.isPrefixOf f.data = false := by
  have hc : (validFiles.contains f = false) ↔ f ∉ validFiles := by
    rw [← Bool.not_eq_true, not_iff_not]
    simp [List.contains, List.elem_iff]
  simp only [conflictsOf, List.mem_filter, isErrorLog_eq, Bool.not_eq_true']
  rw [hc]
  tauto

/-- C6 (confirmed): the guard returns `false` exactly when some directory
entry is neither in the allow-list nor prefixed by `npm-debug.log`, and it
reports exactly those entries; a directory of `.git` and `README.md` is
safe, one of `.git` and `dist` is unsafe with `dist` reported. -/
theorem claim_C6_main :
    (∀ entries : List String,
      ((isSafeToCreateProjectIn entries).safe = false ↔
        ∃ f ∈ entries, f ∉ validFiles ∧ "npm-debug.log".data.isPrefixOf f.data = false) ∧
      (∀ f, f ∈ (isSafeToCreateProjectIn entries).reported ↔
        (f ∈ entries ∧ f ∉ validFiles ∧ "npm-debug.log".data.isPrefixOf f.data = false))) ∧
    (isSafeToCreateProjectIn [".git", "README.md"]).safe = true ∧
    (isSafeToCreateProjectIn [".git", "dist"]).safe = false ∧
    (isSafeToCreateProjectIn [".git", "dist"]).reported = ["dist"] := by
  refine ⟨?_, by decide, by decide, by decide⟩
  intro entries
  unfold isSafeToCreateProjectIn
  by_cases h : (conflictsOf entries).length > 0
  · rw [if_pos h]
    constructor
    · simp only [true_iff]
      obtain ⟨f, hf⟩ := List.exists_mem_of_length_pos h
      exact ⟨f, (mem_conflictsOf entries f).mp hf⟩
    · intro f
      exact mem_conflictsOf entries f
  · rw [if_neg h]
    have hnil : conflictsOf entries = [] := by
      cases hc : conflictsOf entries with
      | nil => rfl
      | cons a t => rw [hc] at h; simp at h
    constructor
    · simp only [Bool.true_eq_false, false_iff]
      intro ⟨f, hf, hprops⟩
      have : f ∈ conflictsOf entries := (mem_conflictsOf entries f).mpr ⟨hf, hprops⟩
      rw [hnil] at this
      exact List.not_mem_nil f this
    · intro f
      simp only [List.not_mem_nil, false_iff]
      intro hprops
      have : f ∈ conflictsOf entries := (mem_conflictsOf entries f).mpr hprops
      rw [hnil] at this
      exact List.not_mem_nil f this

/-! ## C7: the guard's self-healing of error-log remnants -/

/-- C7 (confirmed): when every entry outside the allow-list is prefixed by
`npm-debug.log`, the guard returns `true` and afterwards no
`npm-debug.log`-prefixed entry remains in the directory. -/
theorem claim_C7_main (entries : List String)
    (h : ∀ f ∈ entries, f ∉ validFiles → "npm-debug.log".data.isPrefixOf f.data = true) :
    (isSafeToCreateProjectIn entries).safe = true ∧
    ∀ f, "npm-debug.log".data.isPrefixOf f.data = true →
      f ∉ (isSafeToCreateProjectIn entries).entriesAfter := by
  have hnil : conflictsOf entries = [] := by
    rw [List.eq_nil_iff_forall_not_mem]
    intro f hf
    rw [mem_conflictsOf] at hf
    rw [h f hf.1 hf.2.1] at hf
    exact Bool.true_eq_false.mp hf.2.2
  have hlen : ¬(conflictsOf entries).length > 0 := by
    rw [hnil]
    simp
  unfold isSafeToCreateProjectIn
  rw [if_neg hlen]
  refine ⟨rfl, ?_⟩
  intro f hf hmem
  rw [List.mem_filter, isErrorLog_eq, hf] at hmem
  simp at hmem

/-- C7 (witness): a directory containing only `npm-debug.log.1234` is safe
and the file is gone afterwards. -/
theorem claim_C7_witness :
    (isSafeToCreateProjectIn ["npm-debug.log.1234"]).safe = true ∧
    "npm-debug.log.1234" ∉ (isSafeToCreateProjectIn ["npm-debug.log.1234"]).entriesAfter := by
  have h := claim_C7_main ["npm-debug.log.1234"] (by decide)
  exact ⟨h.1, h.2 "npm-debug.log.1234" (by decide)⟩

/-! ## Lemmas about trimming and the semver validator on symbolic input -/

theorem dropWhile_append_singleton (p : Char → Bool) (xs : List Char) (c : Char)
    (h : p c = false) : (xs ++ [c]).dropWhile p = xs.dropWhile p ++ [c] := by
  induction xs with
  | nil => simp [List.dropWhile, h]
  | cons x t ih =>
    by_cases hx : p x
    · simp [List.dropWhile, hx, ih]
    · simp [List.dropWhile, hx]

theorem trimRight_cons (c : Char) (r : List Char) (h : jsWs c = false) :
    trimRight (c :: r) = c :: trimRight r := by
  unfold trimRight
  rw [List.reverse_cons, dropWhile_append_singleton jsWs r.reverse c h, List.reverse_append]
  rfl

theorem jsTrim_cons (c : Char) (r : List Char) (h : jsWs c = false) :
    jsTrim (c :: r) = c :: trimRight r := by
  unfold jsTrim trimLeft
  rw [List.dropWhile_cons_of_neg (by simp [h]), trimRight_cons c r h]

/-- The validator rejects any string whose first character is neither
whitespace, `v`, nor a digit: the strict grammar must start parsing a
numeral there. -/
theorem semverValidL_cons_none (c : Char) (r : List Char)
    (hws : jsWs c = false) (hv : c ≠ 'v') (hd : c.isDigit = false) :
    semverValidL (c :: r) = none := by
  unfold semverValidL
  by_cases hlen : (c :: r).length > 256
  · rw [if_pos hlen]
  · rw [if_neg hlen, jsTrim_cons c r hws]
    have hz : c ≠ '0' := by
      intro h
      rw [h] at hd
      simp [Char.isDigit] at hd
    have hsv : stripV (c :: trimRight r) = c :: trimRight r := by
      simp only [stripV, if_neg hv]
    have hnum : parseNumIdent (c :: trimRight r) = none := by
      simp only [parseNumIdent]
      rw [if_neg hz, if_neg (by simp [hd])]
    simp only [semverParse, hsv, parseMain, hnum]

/-! ## C2: semver resolution -/

/-- C2 (counterexample): `1.2.3+b` is a valid semantic version (SemVer
2.0.0 permits build metadata, and the code's own validator accepts it),
but resolution yields `k8s-scripts@1.2.3` -- the validator's normalized
form, with the build metadata dropped -- not `k8s-scripts@1.2.3+b`. -/
theorem claim_C2_counterexample :
    semver2Spec "1.2.3+b" = true ∧
    semverValid "1.2.3+b" = some "1.2.3" ∧
    getInstallPackage (some "1.2.3+b") "/home/user" "/cwd" = ResolveResult.ok "k8s-scripts@1.2.3" ∧
    ("k8s-scripts@1.2.3" : String) ≠ "k8s-scripts@" ++ "1.2.3+b" :=
  ⟨rfl, rfl, rfl, by decide⟩

/-- C2 (amended): for every version string V that the validator accepts in
canonical form (`semver.valid(V) = V`, i.e. valid SemVer 2.0.0 with no
leading `v`, no surrounding whitespace and no build metadata), resolution
with any original working directory yields `k8s-scripts@V`; in general the
code appends the validator's normalized form rather than V itself. -/
theorem claim_C2_main (V C pcwd : String) (h : semverValid V = some V) :
    getInstallPackage (some V) C pcwd = ResolveResult.ok ("k8s-scripts@" ++ V) := by
  unfold semverValid at h
  rw [Option.map_eq_some'] at h
  obtain ⟨l, hl, hmk⟩ := h
  subst hmk
  simp only [getInstallPackage, hl]
  apply congrArg
  apply stringExt
  rw [String.data_append]

/-- C2 (witness): the amended theorem at the canonical version `1.2.3`. -/
theorem claim_C2_witness :
    getInstallPackage (some "1.2.3") "/orig" "/cwd" = ResolveResult.ok ("k8s-scripts@" ++ "1.2.3") :=
  claim_C2_main "1.2.3" "/orig" "/cwd" rfl

/-! ## C3: the tarball fallback path -/

/-- C3 (counterexample): `x.tar.gz` is tarball-shaped, but when unpacking
fails the promise is rejected, not resolved: the fallback regex `^.+\/...`
finds no `/`, `match` returns `null`, and `[1]` throws inside the catch
handler. -/
theorem claim_C3_counterexample :
    isTarball "x.tar.gz" = true ∧
    getPackageName "x.tar.gz" none (fun _ => none) = PResult.rejected :=
  ⟨rfl, rfl⟩

/-- C3 (amended): for a tarball-shaped reference on which unpacking fails,
the catch handler resolves the promise with the name inferred from the
filename whenever the reference matches the fallback filename pattern
(which requires a directory separator before the stem); when it does not
-- e.g. a bare filename with no `/` -- the fallback lookup itself throws
and the promise is rejected. -/
theorem claim_C3_main (s : String) (fm : String → Option String)
    (h : isTarball s = true) :
    (∀ n, assumedNameL s.data = some n →
      getPackageName s none fm = PResult.resolved (String.mk n)) ∧
    (assumedNameL s.data = none → getPackageName s none fm = PResult.rejected) := by
  unfold isTarball at h
  constructor
  · intro n hn
    simp only [getPackageName, h, if_true, hn]
  · intro hn
    simp only [getPackageName, h, if_true, hn]

/-- C3 (witness): the amended theorem at `a/b.tgz` with a failing unpack:
the promise resolves with the inferred stem `b`. -/
theorem claim_C3_witness :
    getPackageName "a/b.tgz" none (fun _ => none) = PResult.resolved "b" :=
  (claim_C3_main "a/b.tgz" (fun _ => none) rfl).1 "b".data rfl

/-! ## Lemmas about getInstallPackage's branches and path resolution -/

theorem getInstallPackage_semver (v C pcwd : String) (norm : List Char)
    (h : semverValidL v.data = some norm) :
    getInstallPackage (some v) C pcwd =
      ResolveResult.ok (String.mk ("k8s-scripts@".data ++ norm)) := by
  simp only [getInstallPackage, h]

theorem getInstallPackage_other (v C pcwd : String) (h : semverValidL v.data = none) :
    getInstallPackage (some v) C pcwd =
      (if v.data = [] then ResolveResult.ok "k8s-scripts"
       else if v.data.head? = some '@' && !v.data.contains '/' then
         ResolveResult.ok (String.mk ("k8s-scripts".data ++ v.data))
       else if "file:".data.isPrefixOf v.data then
         match fileCapture v.data with
         | some p => ResolveResult.ok (String.mk ("file:".data ++
             pathResolveL pcwd.data [C.data, p]))
         | none => ResolveResult.typeError
       else ResolveResult.ok v) := by
  simp only [getInstallPackage, h]

theorem fileCapture_eq_none (l : List Char) :
    fileCapture l = none ↔ (l.drop 5 = [] ∨ (l.drop 5).all jsDot = false) := by
  unfold fileCapture
  cases hd : l.drop 5 with
  | nil => simp
  | cons a t =>
    by_cases ha : (a :: t).all jsDot = true
    · rw [if_pos (by simp [ha])]
      simp [ha]
    · rw [Bool.not_eq_true] at ha
      rw [if_neg (by simp [ha])]
      simp [ha]

theorem fileCapture_eq_some (l p : List Char) (h : fileCapture l = some p) :
    p = l.drop 5 ∧ l.drop 5 ≠ [] ∧ (l.drop 5).all jsDot = true := by
  unfold fileCapture at h
  by_cases hc : (!(l.drop 5).isEmpty && (l.drop 5).all jsDot) = true
  · rw [if_pos hc] at h
    rw [Bool.and_eq_true, Bool.not_eq_true'] at hc
    refine ⟨?_, ?_, hc.2⟩
    · injection h with h2
      exact h2.symm
    · intro heq
      rw [heq] at hc
      simp at hc
  · rw [if_neg hc] at h
    exact absurd h (by simp)

theorem isPrefixOf_append_self (l t : List Char) : l.isPrefixOf (l ++ t) = true := by
  induction l with
  | nil => simp [List.isPrefixOf]
  | cons a as ih => simp [List.isPrefixOf, ih]

theorem resolveAccum_abs (p c w w2 : List Char) (h : c.head? = some '/') :
    resolveAccum [] [p, c, w] = resolveAccum [] [p, c, w2] ∧
    (resolveAccum [] [p, c, w]).1 = true := by
  cases c with
  | nil => simp at h
  | cons c0 ct =>
    have hc0 : c0 = '/' := by simpa using h
    subst hc0
    cases p with
    | nil => exact ⟨rfl, rfl⟩
    | cons p0 pt =>
      by_cases hp : p0 = '/'
      · subst hp
        exact ⟨rfl, rfl⟩
      · constructor
        · simp [resolveAccum, hp]
        · simp [resolveAccum, hp]

theorem pathResolveL_indep (w w2 c p : List Char) (h : c.head? = some '/') :
    pathResolveL w [c, p] = pathResolveL w2 [c, p] := by
  unfold pathResolveL
  rw [show ([c, p].reverse ++ [w]) = [p, c, w] from rfl,
    show ([c, p].reverse ++ [w2]) = [p, c, w2] from rfl,
    (resolveAccum_abs p c w w2 h).1]

theorem pathResolveL_abs_head (w c p : List Char) (h : c.head? = some '/') :
    (pathResolveL w [c, p]).head? = some '/' := by
  unfold pathResolveL
  rw [show ([c, p].reverse ++ [w]) = [p, c, w] from rfl]
  rw [if_pos (resolveAccum_abs p c w w h).2]
  rfl

/-! ## C8: file:-reference resolution against the original directory -/

/-- C8 (counterexample): for the relative path `a\nb` (a legal POSIX
filename containing a newline) the inner regex `/^file:(.*)?$/` cannot
match -- `.` does not cross a line terminator and `$` anchors at the true
end -- so `match` is `null` and indexing `[1]` throws a TypeError instead
of yielding a reference. -/
theorem claim_C8_counterexample :
    getInstallPackage (some "file:a\nb") "/home/user" "/cwd" = ResolveResult.typeError :=
  rfl

/-- C8 (amended): for every `file:`-prefixed input whose relative path P is
nonempty and free of line terminators, and every absolute original working
directory C, resolution yields `file:` followed by `path.resolve(C, P)`,
the result is independent of the process's actual current directory, and
the resolved path is absolute.  (For empty P the optional group does not
participate, the capture is `undefined` and `path.resolve` throws; for P
with a line terminator the match is `null` and `[1]` throws.) -/
theorem claim_C8_main (P C pcwd pcwd2 : String)
    (habs : C.data.head? = some '/')
    (hrel : P.data.head? ≠ some '/')
    (hne : P.data ≠ [])
    (hdot : P.data.all jsDot = true) :
    getInstallPackage (some ("file:" ++ P)) C pcwd =
      ResolveResult.ok (String.mk ("file:".data ++ pathResolveL pcwd.data [C.data, P.data])) ∧
    pathResolveL pcwd.data [C.data, P.data] = pathResolveL pcwd2.data [C.data, P.data] ∧
    (pathResolveL pcwd.data [C.data, P.data]).head? = some '/' := by
  have hdata : ("file:" ++ P).data = 'f' :: 'i' :: 'l' :: 'e' :: ':' :: P.data := by
    rw [String.data_append]
    rfl
  have hsem : semverValidL ("file:" ++ P).data = none := by
    rw [hdata]
    exact semverValidL_cons_none 'f' _ (by decide) (by decide) (by decide)
  refine ⟨?_, pathResolveL_indep pcwd.data pcwd2.data C.data P.data habs,
    pathResolveL_abs_head pcwd.data C.data P.data habs⟩
  have hcond : (!P.data.isEmpty && P.data.all jsDot) = true := by
    rw [Bool.and_eq_true]
    refine ⟨?_, hdot⟩
    cases hP : P.data with
    | nil => exact absurd hP hne
    | cons a t => rfl
  have hcap : fileCapture ('f' :: 'i' :: 'l' :: 'e' :: ':' :: P.data) = some P.data := by
    unfold fileCapture
    rw [show List.drop 5 ('f' :: 'i' :: 'l' :: 'e' :: ':' :: P.data) = P.data from rfl,
      if_pos hcond]
  rw [getInstallPackage_other _ C pcwd hsem, hdata]
  rw [if_neg (by simp)]
  rw [if_neg (by simp)]
  rw [if_pos (show "file:".data.isPrefixOf ('f' :: 'i' :: 'l' :: 'e' :: ':' :: P.data) = true
    from isPrefixOf_append_self "file:".data P.data)]
  rw [hcap]

/-- C8 (witness): the amended theorem at P = `lib`, C = `/home`, with two
different process working directories. -/
theorem claim_C8_witness :
    getInstallPackage (some ("file:" ++ "lib")) "/home" "/x" =
      ResolveResult.ok (String.mk ("file:".data ++ pathResolveL "/x".data ["/home".data, "lib".data])) ∧
    pathResolveL "/x".data ["/home".data, "lib".data] =
      pathResolveL "/y".data ["/home".data, "lib".data] ∧
    (pathResolveL "/x".data ["/home".data, "lib".data]).head? = some '/' :=
  claim_C8_main "lib" "/home" "/x" "/y" (by decide) (by decide) (by decide) (by decide)

/-! ## C9: totality of the reference classification -/

/-- C9 (counterexample): the classifier performs no I/O but is not free of
failure modes: it throws a TypeError on `file:x\ny` (the match is `null`,
`[1]` throws) and on the bare `file:` (the optional group's zero-width
iteration is rejected, the capture is `undefined`, and
`path.resolve(originalDirectory, undefined)` throws). -/
theorem claim_C9_counterexample :
    getInstallPackage (some "file:x\ny") "/a" "/b" = ResolveResult.typeError ∧
    getInstallPackage (some "file:") "/a" "/b" = ResolveResult.typeError :=
  ⟨rfl, rfl⟩

/-- C9 (amended): the classification is pure and, by its ordered if-else
chain, lands every input in exactly one branch, but it is total and
non-throwing only outside the `file:` branch's failure modes: it throws a
TypeError exactly for `file:`-prefixed inputs whose remainder after
`file:` is empty (the capture is `undefined` and `path.resolve` throws) or
contains a line terminator (the match is `null` and `[1]` throws); on
every other input, with any original and process working directory, it
returns a reference. -/
theorem claim_C9_main (version : Option String) (C pcwd : String) :
    getInstallPackage version C pcwd = ResolveResult.typeError ↔
      ∃ s, version = some s ∧ "file:".data.isPrefixOf s.data = true ∧
        (s.data.drop 5 = [] ∨ (s.data.drop 5).all jsDot = false) := by
  cases version with
  | none => simp [getInstallPackage]
  | some v =>
    by_cases hp : "file:".data.isPrefixOf v.data = true
    · obtain ⟨t, ht⟩ := List.isPrefixOf_iff_prefix.mp hp
      have hsem : semverValidL v.data = none := by
        rw [← ht]
        exact semverValidL_cons_none 'f' _ (by decide) (by decide) (by decide)
      rw [getInstallPackage_other v C pcwd hsem]
      rw [if_neg (show ¬(v.data = []) by rw [← ht]; simp)]
      have hhead : v.data.head? = some 'f' := by rw [← ht]; rfl
      rw [if_neg (by simp [hhead])]
      rw [if_pos hp]
      cases hcap : fileCapture v.data with
      | some p =>
        obtain ⟨_, hne2, hall2⟩ := fileCapture_eq_some v.data p hcap
        simp only [reduceCtorEq, false_iff, not_exists, not_and]
        intro s hs hpre
        rw [Option.some.injEq] at hs
        subst hs
        intro hdisj
        rcases hdisj with h2 | h2
        · exact hne2 h2
        · rw [hall2] at h2
          exact Bool.true_eq_false.mp h2
      | none =>
        simp only [true_iff]
        exact ⟨v, rfl, hp, (fileCapture_eq_none v.data).mp hcap⟩
    · have hnofile : ∀ r, (ResolveResult.ok r = ResolveResult.typeError ↔
          ∃ s, (some v = some s) ∧ "file:".data.isPrefixOf s.data = true ∧
            (s.data.drop 5 = [] ∨ (s.data.drop 5).all jsDot = false)) := by
        intro r
        simp only [reduceCtorEq, false_iff, not_exists, not_and]
        intro s hs hpre
        rw [Option.some.injEq] at hs
        subst hs
        exact absurd hpre hp
      cases hsem : semverValidL v.data with
      | some norm =>
        rw [getInstallPackage_semver v C pcwd norm hsem]
        exact hnofile _
      | none =>
        rw [getInstallPackage_other v C pcwd hsem]
        by_cases hne : v.data = []
        · rw [if_pos hne]
          exact hnofile _
        · rw [if_neg hne]
          by_cases hat : (v.data.head? = some '@' && !v.data.contains '/') = true
          · rw [if_pos hat]
            exact hnofile _
          · rw [if_neg hat, if_neg hp]
            exact hnofile _

/-! ## C10: round-trip of resolution and name extraction -/

/-- C10 (counterexample): `@x.tgz` is a dist-tag in the claim's sense (it
starts with `@` and has no `/`), resolution yields `k8s-scripts@x.tgz`,
but that reference matches the tarball pattern, so name extraction takes
the tarball branch: with unpacking failing it rejects instead of resolving
`k8s-scripts`. -/
theorem claim_C10_counterexample :
    ("@x.tgz".data.head? = some '@' ∧ "@x.tgz".data.contains '/' = false) ∧
    getInstallPackage (some "@x.tgz") "/orig" "/cwd" = ResolveResult.ok "k8s-scripts@x.tgz" ∧
    getPackageName "k8s-scripts@x.tgz" none (fun _ => none) = PResult.rejected :=
  ⟨⟨rfl, rfl⟩, rfl, rfl⟩

/-- C10 (amended): for a version argument that is absent, accepted by the
semver validator, or a dist-tag (starting with `@`, no `/`), and whose
resolved reference does not match the tarball pattern (i.e. the tag or
version does not make the reference end in `.tgz`/`.tar.gz`), applying
`getPackageName` to the resolved reference resolves to `k8s-scripts`,
whatever the unpack and manifest oracles do. -/
theorem claim_C10_main (version : Option String) (C pcwd : String)
    (tar : Option String) (fm : String → Option String) (ref : String)
    (hshape : version = none ∨
      (∃ s, version = some s ∧ (semverValid s).isSome = true) ∨
      (∃ s, version = some s ∧ s.data.head? = some '@' ∧ s.data.contains '/' = false))
    (hres : getInstallPackage version C pcwd = ResolveResult.ok ref)
    (htar : isTarball ref = false) :
    getPackageName ref tar fm = PResult.resolved "k8s-scripts" := by
  unfold isTarball at htar
  rcases hshape with hv | ⟨s, hv, hsome⟩ | ⟨s, hv, hat, hsl⟩
  · subst hv
    have h2 : ResolveResult.ok "k8s-scripts" = ResolveResult.ok ref := hres
    injection h2 with h3
    subst h3
    rfl
  · subst hv
    rw [Option.isSome_iff_exists] at hsome
    obtain ⟨x, hx⟩ := hsome
    unfold semverValid at hx
    rw [Option.map_eq_some'] at hx
    obtain ⟨norm, hnorm, _⟩ := hx
    rw [getInstallPackage_semver s C pcwd norm hnorm] at hres
    injection hres with h3
    subst h3
    have htar2 : isTarballL
        ('k' :: '8' :: 's' :: '-' :: 's' :: 'c' :: 'r' :: 'i' :: 'p' :: 't' :: 's' :: '@' :: norm) =
        false := htar
    simp only [getPackageName]
    rw [if_neg (by simp [htar2])]
    rfl
  · subst hv
    cases hdata : s.data with
    | nil => rw [hdata] at hat; simp at hat
    | cons c t =>
      have hc : c = '@' := by
        rw [hdata] at hat
        simpa using hat
      subst hc
      have hsem : semverValidL s.data = none := by
        rw [hdata]
        exact semverValidL_cons_none '@' t (by decide) (by decide) (by decide)
      rw [getInstallPackage_other s C pcwd hsem] at hres
      rw [if_neg (by rw [hdata]; simp)] at hres
      rw [if_pos (by rw [hat, hsl]; rfl)] at hres
      injection hres with h3
      subst h3
      rw [hdata] at htar
      have htar2 : isTarballL
          ('k' :: '8' :: 's' :: '-' :: 's' :: 'c' :: 'r' :: 'i' :: 'p' :: 't' :: 's' :: '@' :: t) =
          false := htar
      rw [hdata]
      simp only [getPackageName]
      rw [if_neg (by simp [htar2])]
      rfl

/-- C10 (witness): the amended theorem at the dist-tag `@next` with a
failing unpack oracle: the round-trip resolves `k8s-scripts`. -/
theorem claim_C10_witness :
    getPackageName "k8s-scripts@next" none (fun _ => none) = PResult.resolved "k8s-scripts" :=
  claim_C10_main (some "@next") "/o" "/p" none (fun _ => none) "k8s-scripts@next"
    (Or.inr (Or.inr ⟨"@next", rfl, rfl, rfl⟩)) rfl rfl

end CKA
